import Mathlib

/-!
Verification of the larago `http.Request` façade (src/http/request.go).

The Go code is shallowly embedded: Go strings become `List Char`, the
`net/http` request object becomes the structure `NetRequest`, and the
stateful body / form operations become explicit state passing.  The
behavior of the external collaborators that the code calls into
(`net/http` header lookup and canonicalization, `net.SplitHostPort`,
`net/http` cookie lookup and `Cookie.String`, `strings` helpers) is
embedded from their documented semantics, since `Request` delegates to
them directly.
-/

namespace Larago

/-- Go strings are modelled as lists of characters. -/
abbrev GoString := List Char

/-- Go error values are modelled by their message string. -/
abbrev GoErr := GoString

/-- Models `unicode.IsSpace` (the cutset of `strings.TrimSpace`):
the Unicode white-space code points. -/
def goIsSpace (c : Char) : Bool :=
  (9 ≤ c.toNat && c.toNat ≤ 13) || c.toNat = 32 || c.toNat = 133 || c.toNat = 160 ||
  c.toNat = 0x1680 || (0x2000 ≤ c.toNat && c.toNat ≤ 0x200A) ||
  c.toNat = 0x2028 || c.toNat = 0x2029 || c.toNat = 0x202F || c.toNat = 0x205F ||
  c.toNat = 0x3000

/-- Leading-whitespace trim (`strings.TrimLeft` with the space cutset). -/
def trimLeft (s : GoString) : GoString :=
  s.dropWhile goIsSpace

/-- Trailing-whitespace trim (`strings.TrimRight` with the space cutset). -/
def trimRight (s : GoString) : GoString :=
  (s.reverse.dropWhile goIsSpace).reverse

/-- Models `strings.TrimSpace`: trims leading and trailing white space. -/
def trimSpace (s : GoString) : GoString :=
  trimRight (trimLeft s)

/-- Whether `sub` occurs at the very beginning of `s`
(`strings.HasPrefix` / the per-position check of `strings.Index`). -/
def startsWith : GoString → GoString → Bool
  | _, [] => true
  | [], _ :: _ => false
  | c :: s, d :: t => c == d && startsWith s t

/-- Models `strings.Contains s sub`: `sub` occurs somewhere inside `s`. -/
def hasSubstr : GoString → GoString → Bool
  | [], sub => startsWith [] sub
  | c :: t, sub => startsWith (c :: t) sub || hasSubstr t sub

/-- Models `strings.IndexByte`: index of the first occurrence of `c`
in `s`, or `-1` if absent. -/
def goIndexByte (s : GoString) (c : Char) : Int :=
  match s with
  | [] => -1
  | d :: t =>
    if d == c then 0
    else
      let i := goIndexByte t c
      if i < 0 then -1 else i + 1

/-- Index of the last occurrence of `c` in `s`, or `-1` if absent
(the `last` helper used by `net.SplitHostPort`). -/
def goLastIndexByte (s : GoString) (c : Char) : Int :=
  match s with
  | [] => -1
  | d :: t =>
    let i := goLastIndexByte t c
    if i ≥ 0 then i + 1 else if d == c then 0 else -1

/-- The non-comma character test. -/
def notComma (c : Char) : Bool :=
  !(c == ',')

/-- The prefix of `s` strictly before the first comma (the whole of `s`
when there is no comma).  Specification-side characterization of the
`IndexByte`/slice step in `Request.IP`. -/
def beforeComma (s : GoString) : GoString :=
  s.takeWhile notComma

/-- Models `net/textproto`'s token table `isTokenTable` /
`validHeaderFieldByte`: the bytes allowed in a MIME header key. -/
def validHeaderFieldChar (c : Char) : Bool :=
  c.isAlphanum ||
  c = '!' || c = '#' || c = '$' || c = '%' || c = '&' || c = Char.ofNat 39 ||
  c = '*' || c = '+' || c = '-' || c = '.' || c = '^' || c = '_' ||
  c = Char.ofNat 96 || c = '|' || c = '~'

/-- One step of MIME-header-key canonicalization: uppercase at the start
of a word (after a hyphen), lowercase elsewhere; non-letters unchanged. -/
def canonChar (upper : Bool) (c : Char) : Char :=
  if upper && ('a' ≤ c && c ≤ 'z') then Char.ofNat (c.toNat - 32)
  else if (!upper) && ('A' ≤ c && c ≤ 'Z') then Char.ofNat (c.toNat + 32)
  else c

/-- The canonicalization loop of `textproto.CanonicalMIMEHeaderKey`. -/
def canonLoop : Bool → GoString → GoString
  | _, [] => []
  | upper, c :: rest =>
    let c2 := canonChar upper c
    c2 :: canonLoop (c2 == '-') rest

/-- Models `textproto.CanonicalMIMEHeaderKey`: canonicalize a header key,
returning it unchanged when it contains an invalid byte. -/
def canonicalMIMEHeaderKey (s : GoString) : GoString :=
  if s.all validHeaderFieldChar then canonLoop true s else s

/-- Models `net/http` header lookup (`Header.Get`) over the wire headers:
`net/http` stores each wire key canonicalized and `Get` canonicalizes the
queried name, so the first pair whose canonicalized key matches the
canonicalized name wins; absence gives the empty string. -/
def headerGet (hs : List (GoString × GoString)) (name : GoString) : GoString :=
  match hs.find? (fun p => canonicalMIMEHeaderKey p.1 == canonicalMIMEHeaderKey name) with
  | some p => p.2
  | none => []

/-- Models `net.SplitHostPort`: split a `host:port` (or `[host]:port`)
address, `none` on any of its error returns. -/
def splitHostPort (hostPort : GoString) : Option (GoString × GoString) :=
  let i := goLastIndexByte hostPort ':'
  if i < 0 then none
  else
    match hostPort with
    | [] => none
    | c0 :: _ =>
      if c0 == '[' then
        let e := goIndexByte hostPort ']'
        if e < 0 then none
        else if e.toNat + 1 = hostPort.length then none
        else if e + 1 = i then
          if goIndexByte (hostPort.drop 1) '[' ≥ 0 then none
          else if goIndexByte (hostPort.drop (e.toNat + 1)) ']' ≥ 0 then none
          else some ((hostPort.drop 1).take (e.toNat - 1), hostPort.drop (i.toNat + 1))
        else none
      else
        let host := hostPort.take i.toNat
        if goIndexByte host ':' ≥ 0 then none
        else if goIndexByte hostPort '[' ≥ 0 then none
        else if goIndexByte hostPort ']' ≥ 0 then none
        else some (host, hostPort.drop (i.toNat + 1))

/-- A parsed cookie (`net/http.Cookie` restricted to the name/value pair
that request cookies carry). -/
structure Cookie where
  name : GoString
  value : GoString
deriving Repr, DecidableEq

/-- Models `net/http`'s cookie-name validity check (`isCookieNameValid`). -/
def cookieNameValid (n : GoString) : Bool :=
  !n.isEmpty && n.all validHeaderFieldChar

/-- Models `(*http.Cookie).String()` on the pointer returned by
`Request.Cookie`: a nil cookie (and an invalid name) serializes to the
empty string, otherwise `name=value`. -/
def cookieString : Option Cookie → GoString
  | none => []
  | some c => if cookieNameValid c.name then c.name ++ ('=' :: c.value) else []

/-- `url.Values`: an ordered key to multi-value mapping.  A Go `nil`
map is represented by `none` at the use sites (`Option UrlValues`). -/
abbrev UrlValues := List (GoString × List GoString)

/-- A once-readable body stream (`io.ReadCloser`): the bytes it yields,
plus an optional read error making `ioutil.ReadAll` fail. -/
structure Body where
  data : List Nat
  readErr : Option GoErr
deriving Repr, DecidableEq

/-- Models `ioutil.ReadAll` on a body stream: on success it yields all
remaining bytes and leaves the stream drained; on a read error it fails. -/
def readAll (b : Body) : Except GoErr (List Nat) × Body :=
  match b.readErr with
  | some e => (Except.error e, b)
  | none => (Except.ok b.data, { data := [], readErr := none })

/-- The underlying `net/http.Request` as the façade consumes it: wire
headers, remote address, parsed request cookies, the (optional) body
stream, and the lazily populated `Form` field.  `parsedForm` and
`parseFormErr` are the externally determined outcome of `ParseForm`
(which sets `Form` and may also return an error). -/
structure NetRequest where
  headers : List (GoString × GoString)
  remoteAddr : GoString
  cookies : List (GoString × GoString)
  body : Option Body
  form : Option UrlValues
  parsedForm : UrlValues
  parseFormErr : Option GoErr

/-- Models `net/http`'s `Request.Cookie(name)`: the first request cookie
accepted by the `readCookies` filter (an empty filter accepts every
cookie); `none` models the `(nil, http.ErrNoCookie)` return. -/
def NetRequest.cookie (nr : NetRequest) (name : GoString) : Option Cookie :=
  match nr.cookies.find? (fun p => name.isEmpty || p.1 == name) with
  | some p => some { name := p.1, value := p.2 }
  | none => none

/-- The larago `Request` struct.  `route` stands in for the `*Route`
pointer and `bindings` for the interface slice, both left abstract. -/
structure Request where
  request : NetRequest
  route : Option Unit
  params : List (GoString × GoString)
  bindings : List Unit

def xRealIPKey : GoString := ("X-Real-IP").toList
def xForwardedForKey : GoString := ("X-Forwarded-For").toList
def httpXRequestedWithKey : GoString := ("HTTP_X_REQUESTED_WITH").toList
def xRequestedWithKey : GoString := ("X-Requested-With").toList
def xmlHttpRequestVal : GoString := ("XMLHttpRequest").toList
def acceptKey : GoString := ("accept").toList
def applicationJsonVal : GoString := ("application/json").toList
def textHtmlVal : GoString := ("text/html").toList
def textPlainVal : GoString := ("text/plain").toList
def bodyWasEmptyErr : GoErr := ("Body was empty").toList

/-- `Request.Header`: header lookup, trimming the value when non-empty. -/
def Request.Header (r : Request) (name : GoString) : GoString :=
  let value := headerGet r.request.headers name
  if value ≠ [] then trimSpace value else value

/-- `Request.IsAjax`: compares the `HTTP_X_REQUESTED_WITH` header lookup
against the literal `XMLHttpRequest`. -/
def Request.IsAjax (r : Request) : Bool :=
  r.Header httpXRequestedWithKey == xmlHttpRequestVal

/-- `Request.IP`.  The Go source reassigns one `realIP` variable; the
successive values are named `realIP`, `fwd`, `fwd2`, `fwd3` here. -/
def Request.IP (r : Request) : GoString :=
  let realIP := r.Header xRealIPKey
  if realIP ≠ [] then
    realIP
  else
    let fwd := r.Header xForwardedForKey
    let fwd2 := if goIndexByte fwd ',' ≥ 0 then fwd.take (goIndexByte fwd ',').toNat else fwd
    let fwd3 := trimSpace fwd2
    if fwd3 ≠ [] then
      fwd3
    else
      let addr := trimSpace r.request.remoteAddr
      if addr.length = 0 then
        []
      else
        match splitHostPort addr with
        | some (host, _) => host
        | none => addr

/-- `Request.HeaderContains`: substring test on the retrieved header. -/
def Request.HeaderContains (r : Request) (header sub : GoString) : Bool :=
  hasSubstr (r.Header header) sub

/-- `Request.WantsJSON`. -/
def Request.WantsJSON (r : Request) : Bool :=
  r.HeaderContains acceptKey applicationJsonVal

/-- `Request.WantsHTML`. -/
def Request.WantsHTML (r : Request) : Bool :=
  r.HeaderContains acceptKey textHtmlVal

/-- `Request.WantsPlainText`. -/
def Request.WantsPlainText (r : Request) : Bool :=
  r.HeaderContains acceptKey textPlainVal

/-- `Request.Cookie`: returns `cookie.String()` in the error branch of
the lookup (where the cookie pointer is nil) and the empty string in the
success branch. -/
def Request.Cookie (r : Request) (name : GoString) : GoString :=
  match r.request.cookie name with
  | none => cookieString none
  | some _ => []

/-- `Request.HasCookie`: the lookup succeeded. -/
def Request.HasCookie (r : Request) (name : GoString) : Bool :=
  (r.request.cookie name).isSome

/-- `Request.parseForm`: when `Form` is still nil, run `ParseForm`
(which populates `Form` and may return an error); otherwise no-op. -/
def Request.parseForm (r : Request) : Option GoErr × Request :=
  match r.request.form with
  | none =>
    (r.request.parseFormErr,
      { r with request := { r.request with form := some r.request.parsedForm } })
  | some _ => (none, r)

/-- `Request.FormValues`: nil on a parse error, else the `Form` field. -/
def Request.FormValues (r : Request) : Option UrlValues × Request :=
  match r.parseForm with
  | (some _, r2) => (none, r2)
  | (none, r2) => (r2.request.form, r2)

/-- `Request.readBody`: error when no body was attached; otherwise drain
the stream and install the captured bytes back onto the request
(`ioutil.NopCloser(bytes.NewBuffer(rawBody))`). -/
def Request.readBody (r : Request) : Except GoErr (List Nat) × Request :=
  match r.request.body with
  | none => (Except.error bodyWasEmptyErr, r)
  | some b =>
    match readAll b with
    | (Except.error e, _) => (Except.error e, r)
    | (Except.ok rawBody, _) =>
      (Except.ok rawBody,
        { r with request := { r.request with body := some { data := rawBody, readErr := none } } })

/-- `Request.ReadJSON`: read the cached body, then decode.  The call to
`json.Unmarshal(rawBody, target)` is abstracted by the `unmarshal`
parameter (its error result for the given bytes). -/
def Request.ReadJSON (r : Request) (unmarshal : List Nat → Option GoErr) :
    Option GoErr × Request :=
  match r.readBody with
  | (Except.error e, r2) => (some e, r2)
  | (Except.ok rawBody, r2) =>
    match unmarshal rawBody with
    | some e => (some e, r2)
    | none => (none, r2)

/-- A convenient builder for concrete test requests with no cookies,
no body and an unparsed form. -/
def mkTestRequest (hs : List (GoString × GoString)) (ra : GoString) : Request :=
  { request :=
      { headers := hs
        remoteAddr := ra
        cookies := []
        body := none
        form := none
        parsedForm := []
        parseFormErr := none }
    route := none
    params := []
    bindings := [] }

/-- A builder for concrete test requests with a given body slot. -/
def mkBodyRequest (b : Option Body) : Request :=
  { request :=
      { headers := []
        remoteAddr := []
        cookies := []
        body := b
        form := none
        parsedForm := []
        parseFormErr := none }
    route := none
    params := []
    bindings := [] }

/-- A builder for concrete test requests with a given `ParseForm` outcome. -/
def mkFormRequest (pf : UrlValues) (pe : Option GoErr) : Request :=
  { request :=
      { headers := []
        remoteAddr := []
        cookies := []
        body := none
        form := none
        parsedForm := pf
        parseFormErr := pe }
    route := none
    params := []
    bindings := [] }

def wRealIP : Request :=
  mkTestRequest [(xRealIPKey, (" 7.7.7.7 ").toList), (xForwardedForKey, ("1.2.3.4").toList)]
    (("9.9.9.9:4321").toList)

def wForwarded : Request :=
  mkTestRequest [(xForwardedForKey, ("1.2.3.4, 5.6.6.6").toList)] (("9.9.9.9:4321").toList)

def wRemote : Request :=
  mkTestRequest [] (("9.9.9.9:4321").toList)

/-- A request as it arrives from a real ajax client: the standard
`X-Requested-With: XMLHttpRequest` wire header. -/
def ajaxWireRequest : Request :=
  mkTestRequest [(xRequestedWithKey, xmlHttpRequestVal)] []

def wBody : Request :=
  mkBodyRequest (some { data := [104, 105], readErr := none })

def wNoBody : Request :=
  mkBodyRequest none

def wBadBody : Request :=
  mkBodyRequest (some { data := [1, 2], readErr := some (("boom").toList) })

def wFormErr : Request :=
  mkFormRequest [] (some (("bad form").toList))

def wFormOk : Request :=
  mkFormRequest [((("a").toList), [("b").toList])] none

/-! ### Helper lemmas about the string model -/

theorem trimSpace_nil : trimSpace [] = [] := rfl

theorem space_not_comma {c : Char} (h : goIsSpace c = true) : notComma c = true := by
  by_cases hc : c = ','
  · subst hc; exact absurd h (by decide)
  · simp [notComma, hc]

theorem header_trim (r : Request) (name : GoString) :
    r.Header name = trimSpace (headerGet r.request.headers name) := by
  unfold Request.Header
  by_cases h : headerGet r.request.headers name = []
  · rw [h]; simp [trimSpace_nil]
  · simp [h]

theorem indexByte_take_eq (s : GoString) :
    (if goIndexByte s ',' ≥ 0 then s.take (goIndexByte s ',').toNat else s) = beforeComma s := by
  induction s with
  | nil => simp [goIndexByte, beforeComma]
  | cons c t ih =>
    by_cases hc : (c == ',') = true
    · have hn : ¬ notComma c = true := by simp [notComma, hc]
      simp [goIndexByte, hc, beforeComma, List.takeWhile_cons_of_neg hn]
    · have hp : notComma c = true := by simp [notComma, hc]
      rw [beforeComma, List.takeWhile_cons_of_pos hp]
      rw [beforeComma] at ih
      by_cases hi : goIndexByte t ',' < 0
      · have hv : goIndexByte (c :: t) ',' = -1 := by
          show (if (c == ',') = true then (0 : Int) else
            let i := goIndexByte t ','
            if i < 0 then -1 else i + 1) = -1
          rw [if_neg hc]
          show (if goIndexByte t ',' < 0 then (-1 : Int) else goIndexByte t ',' + 1) = -1
          rw [if_pos hi]
        rw [hv, if_neg (by omega : ¬ (-1 : Int) ≥ 0)]
        rw [if_neg (by omega : ¬ goIndexByte t ',' ≥ 0)] at ih
        exact congrArg (List.cons c) ih
      · have hge : goIndexByte t ',' ≥ 0 := by omega
        have hv : goIndexByte (c :: t) ',' = goIndexByte t ',' + 1 := by
          show (if (c == ',') = true then (0 : Int) else
            let i := goIndexByte t ','
            if i < 0 then -1 else i + 1) = goIndexByte t ',' + 1
          rw [if_neg hc]
          show (if goIndexByte t ',' < 0 then (-1 : Int) else goIndexByte t ',' + 1) =
            goIndexByte t ',' + 1
          rw [if_neg hi]
        rw [hv, if_pos (by omega : goIndexByte t ',' + 1 ≥ 0)]
        have htn : (goIndexByte t ',' + 1).toNat = (goIndexByte t ',').toNat + 1 := by omega
        rw [htn, List.take_succ_cons]
        rw [if_pos hge] at ih
        exact congrArg (List.cons c) ih

theorem trimRight_cons (c : Char) (t : GoString) :
    trimRight (c :: t) =
      if trimRight t = [] then (if goIsSpace c then [] else [c]) else c :: trimRight t := by
  unfold trimRight
  rw [List.reverse_cons, List.dropWhile_append]
  by_cases h : t.reverse.dropWhile goIsSpace = []
  · rw [h]
    by_cases hq : goIsSpace c <;>
      simp [List.dropWhile_cons, hq]
  · have hne : ¬ (t.reverse.dropWhile goIsSpace).isEmpty = true := by
      simp [List.isEmpty_iff, h]
    rw [if_neg hne, if_neg (by simp [h])]
    simp

theorem trimRight_eq_nil_iff {t : GoString} :
    trimRight t = [] ↔ ∀ x ∈ t, goIsSpace x := by
  unfold trimRight
  rw [List.reverse_eq_nil_iff, List.dropWhile_eq_nil_iff]
  constructor
  · intro h x hx; exact h x (List.mem_reverse.mpr hx)
  · intro h x hx; exact h x (List.mem_reverse.mp hx)

theorem dropWhile_idem (q : Char → Bool) (s : GoString) :
    (s.dropWhile q).dropWhile q = s.dropWhile q := by
  induction s with
  | nil => rfl
  | cons c t ih =>
    by_cases h : q c
    · rw [List.dropWhile_cons_of_pos h, ih]
    · rw [List.dropWhile_cons_of_neg h, List.dropWhile_cons_of_neg h]

theorem takeWhile_dropWhile_comm (s : GoString) :
    (s.dropWhile goIsSpace).takeWhile notComma =
      (s.takeWhile notComma).dropWhile goIsSpace := by
  induction s with
  | nil => rfl
  | cons c t ih =>
    by_cases hq : goIsSpace c = true
    · have hp : notComma c = true := space_not_comma hq
      rw [List.dropWhile_cons_of_pos hq, List.takeWhile_cons_of_pos hp,
        List.dropWhile_cons_of_pos hq, ih]
    · rw [List.dropWhile_cons_of_neg hq]
      by_cases hp : notComma c = true
      · rw [List.takeWhile_cons_of_pos hp, List.dropWhile_cons_of_neg hq]
      · rw [List.takeWhile_cons_of_neg hp]
        rfl

theorem trimLeft_trimRight_comm (s : GoString) :
    (trimRight s).dropWhile goIsSpace = trimRight (s.dropWhile goIsSpace) := by
  induction s with
  | nil => rfl
  | cons c t ih =>
    by_cases hq : goIsSpace c = true
    · rw [List.dropWhile_cons_of_pos hq, trimRight_cons]
      by_cases hnil : trimRight t = []
      · rw [if_pos hnil, if_pos hq]
        have ht : t.dropWhile goIsSpace = [] :=
          List.dropWhile_eq_nil_iff.mpr (trimRight_eq_nil_iff.mp hnil)
        rw [ht]
        rfl
      · rw [if_neg hnil, List.dropWhile_cons_of_pos hq, ih]
    · rw [List.dropWhile_cons_of_neg hq, trimRight_cons]
      by_cases hnil : trimRight t = []
      · rw [if_pos hnil, if_neg hq, List.dropWhile_cons_of_neg hq]
      · rw [if_neg hnil, List.dropWhile_cons_of_neg hq]

theorem trimRight_nil : trimRight [] = [] := rfl

theorem takeWhile_all {p : Char → Bool} {t : GoString} (h : ∀ x ∈ t, p x = true) :
    t.takeWhile p = t :=
  List.takeWhile_eq_self_iff.mpr h

theorem trimRight_takeWhile (t : GoString) :
    trimRight ((trimRight t).takeWhile notComma) = trimRight (t.takeWhile notComma) := by
  induction t with
  | nil => rfl
  | cons c t ih =>
    by_cases hnil : trimRight t = []
    · have ht : ∀ x ∈ t, goIsSpace x = true := trimRight_eq_nil_iff.mp hnil
      have htw : t.takeWhile notComma = t :=
        takeWhile_all (fun x hx => space_not_comma (ht x hx))
      by_cases hq : goIsSpace c = true
      · have hp : notComma c = true := space_not_comma hq
        simp [trimRight_cons, trimRight_nil, hnil, hq, List.takeWhile_cons_of_pos hp, htw]
      · by_cases hp : notComma c = true
        · simp [trimRight_cons, trimRight_nil, hnil, hq, List.takeWhile_cons_of_pos hp, htw]
        · simp [trimRight_cons, trimRight_nil, hnil, hq, List.takeWhile_cons_of_neg hp]
    · by_cases hp : notComma c = true
      · rw [trimRight_cons, if_neg hnil, List.takeWhile_cons_of_pos hp,
          List.takeWhile_cons_of_pos hp, trimRight_cons, trimRight_cons, ih]
      · rw [trimRight_cons, if_neg hnil, List.takeWhile_cons_of_neg hp,
          List.takeWhile_cons_of_neg hp]

theorem trim_beforeComma_trim (s : GoString) :
    trimSpace (beforeComma (trimSpace s)) = trimSpace (beforeComma s) := by
  show trimRight (List.dropWhile goIsSpace
      (List.takeWhile notComma (trimRight (List.dropWhile goIsSpace s)))) =
    trimRight (List.dropWhile goIsSpace (List.takeWhile notComma s))
  rw [← takeWhile_dropWhile_comm, trimLeft_trimRight_comm, dropWhile_idem,
    trimRight_takeWhile, takeWhile_dropWhile_comm]

/-- Structural characterization of `Request.IP`: the `IndexByte`/slice
step written as `beforeComma`. -/
theorem IP_eq (r : Request) :
    r.IP = if r.Header xRealIPKey ≠ [] then r.Header xRealIPKey
      else if trimSpace (beforeComma (r.Header xForwardedForKey)) ≠ [] then
        trimSpace (beforeComma (r.Header xForwardedForKey))
      else if (trimSpace r.request.remoteAddr).length = 0 then []
      else
        match splitHostPort (trimSpace r.request.remoteAddr) with
        | some (host, _) => host
        | none => trimSpace r.request.remoteAddr := by
  simp only [Request.IP]
  rw [indexByte_take_eq]

/-! ### The client-IP resolution claims -/

/-- C1: for every request whose X-Real-IP header has a non-empty trimmed
value, `clientIP()` (`Request.IP`) returns exactly that trimmed value,
regardless of any X-Forwarded-For header and regardless of the remote
address. -/
theorem clientIP_realIP (r : Request)
    (h : trimSpace (headerGet r.request.headers xRealIPKey) ≠ []) :
    r.IP = trimSpace (headerGet r.request.headers xRealIPKey) := by
  rw [IP_eq, header_trim, if_pos h]

theorem clientIP_realIP_witness :
    trimSpace (headerGet wRealIP.request.headers xRealIPKey) ≠ [] ∧
    wRealIP.IP = ("7.7.7.7").toList :=
  ⟨by decide, by rw [clientIP_realIP wRealIP (by decide)]; decide⟩

/-- C2: for every request with an empty (or absent) X-Real-IP header and
an X-Forwarded-For header whose before-first-comma part trims to a
non-empty string, `clientIP()` returns that trimmed part. -/
theorem clientIP_forwardedFor (r : Request)
    (h1 : trimSpace (headerGet r.request.headers xRealIPKey) = [])
    (h2 : trimSpace (beforeComma (headerGet r.request.headers xForwardedForKey)) ≠ []) :
    r.IP = trimSpace (beforeComma (headerGet r.request.headers xForwardedForKey)) := by
  rw [IP_eq, header_trim, header_trim, h1, trim_beforeComma_trim]
  rw [if_neg (fun hne => hne rfl), if_pos h2]

theorem clientIP_forwardedFor_witness :
    trimSpace (headerGet wForwarded.request.headers xRealIPKey) = [] ∧
    trimSpace (beforeComma (headerGet wForwarded.request.headers xForwardedForKey)) ≠ [] ∧
    wForwarded.IP = ("1.2.3.4").toList :=
  ⟨by decide, by decide,
    by rw [clientIP_forwardedFor wForwarded (by decide) (by decide)]; decide⟩

/-- C3: for every request where both header checks yield empty strings,
`clientIP()` falls back to the transport remote address: empty address
gives the empty string, a `host:port` address gives the host portion,
and any other address is returned unchanged. -/
theorem clientIP_remoteAddr (r : Request)
    (h1 : trimSpace (headerGet r.request.headers xRealIPKey) = [])
    (h2 : trimSpace (beforeComma (headerGet r.request.headers xForwardedForKey)) = [])
    (h3 : trimSpace r.request.remoteAddr = r.request.remoteAddr) :
    (r.request.remoteAddr = [] → r.IP = []) ∧
    (∀ host port, splitHostPort r.request.remoteAddr = some (host, port) → r.IP = host) ∧
    (splitHostPort r.request.remoteAddr = none → r.IP = r.request.remoteAddr) := by
  have hIP : r.IP = if r.request.remoteAddr.length = 0 then []
      else match splitHostPort r.request.remoteAddr with
        | some (host, _) => host
        | none => r.request.remoteAddr := by
    rw [IP_eq, header_trim, header_trim, h1, trim_beforeComma_trim, h2, h3]
    rw [if_neg (fun hne => hne rfl), if_neg (fun hne => hne rfl)]
  refine ⟨?_, ?_, ?_⟩
  · intro h0
    rw [hIP, h0]
    simp
  · intro host port hsp
    have hne : r.request.remoteAddr ≠ [] := by
      intro h0
      rw [h0] at hsp
      exact Option.noConfusion hsp
    rw [hIP, if_neg (by simpa [List.length_eq_zero] using hne), hsp]
  · intro hnone
    by_cases h0 : r.request.remoteAddr = []
    · rw [hIP, h0]
      simp
    · rw [hIP, if_neg (by simpa [List.length_eq_zero] using h0), hnone]

theorem clientIP_remoteAddr_witness :
    splitHostPort wRemote.request.remoteAddr =
      some (("9.9.9.9").toList, ("4321").toList) ∧
    wRemote.IP = ("9.9.9.9").toList :=
  ⟨by decide,
    (clientIP_remoteAddr wRemote (by decide) (by decide) (by decide)).2.1
      (("9.9.9.9").toList) (("4321").toList) (by decide)⟩

/-! ### Substring lemmas for content negotiation -/

theorem startsWith_nil_right (t : GoString) : startsWith t [] = true := by
  cases t <;> rfl

theorem startsWith_nil (sub : GoString) : startsWith [] sub = sub.isEmpty := by
  cases sub <;> rfl

theorem isEmpty_false_of_ne {sub : GoString} (hne : sub ≠ []) : sub.isEmpty = false := by
  cases sub with
  | nil => exact absurd rfl hne
  | cons d es => rfl

theorem beq_false_of_space_nonspace {c d : Char} (hc : goIsSpace c = true)
    (hd : goIsSpace d = false) : (c == d) = false := by
  by_cases h : c = d
  · subst h
    rw [hc] at hd
    exact Bool.noConfusion hd
  · simp [h]

theorem startsWith_allSpace {t ds : GoString} (ht : ∀ x ∈ t, goIsSpace x = true)
    (hd : ∀ d ∈ ds, goIsSpace d = false) : startsWith t ds = ds.isEmpty := by
  cases ds with
  | nil => exact startsWith_nil_right t
  | cons d es =>
    cases t with
    | nil => rfl
    | cons x t2 =>
      have hb : (x == d) = false :=
        beq_false_of_space_nonspace (ht x (List.mem_cons_self x t2))
          (hd d (List.mem_cons_self d es))
      simp [startsWith, hb]

theorem hasSubstr_allSpace {t sub : GoString} (ht : ∀ x ∈ t, goIsSpace x = true)
    (hne : sub ≠ []) (hns : ∀ d ∈ sub, goIsSpace d = false) :
    hasSubstr t sub = false := by
  induction t with
  | nil =>
    rw [hasSubstr, startsWith_nil, isEmpty_false_of_ne hne]
  | cons x t2 ih =>
    rw [hasSubstr, startsWith_allSpace ht hns, isEmpty_false_of_ne hne,
      ih (fun y hy => ht y (List.mem_cons_of_mem x hy))]
    rfl

theorem startsWith_trimRight (t : GoString) : ∀ ds : GoString,
    (∀ d ∈ ds, goIsSpace d = false) → startsWith (trimRight t) ds = startsWith t ds := by
  induction t with
  | nil => intro ds hd; rfl
  | cons x t2 ih =>
    intro ds hd
    rw [trimRight_cons]
    by_cases hnil : trimRight t2 = []
    · have ht2 : ∀ y ∈ t2, goIsSpace y = true := trimRight_eq_nil_iff.mp hnil
      rw [if_pos hnil]
      cases ds with
      | nil => rw [startsWith_nil_right, startsWith_nil_right]
      | cons d es =>
        have hdn : goIsSpace d = false := hd d (List.mem_cons_self d es)
        by_cases hq : goIsSpace x = true
        · rw [if_pos hq]
          have hb : (x == d) = false := beq_false_of_space_nonspace hq hdn
          simp [startsWith, hb]
        · rw [if_neg hq]
          have hes : startsWith t2 es = es.isEmpty :=
            startsWith_allSpace ht2 (fun y hy => hd y (List.mem_cons_of_mem d hy))
          rw [startsWith, startsWith, startsWith_nil, hes]
    · rw [if_neg hnil]
      cases ds with
      | nil => rw [startsWith_nil_right, startsWith_nil_right]
      | cons d es =>
        rw [startsWith, startsWith, ih es (fun y hy => hd y (List.mem_cons_of_mem d hy))]

theorem hasSubstr_trimRight (s sub : GoString) (hne : sub ≠ [])
    (hns : ∀ d ∈ sub, goIsSpace d = false) :
    hasSubstr (trimRight s) sub = hasSubstr s sub := by
  induction s with
  | nil => rfl
  | cons c t ih =>
    by_cases hnil : trimRight t = []
    · have ht : ∀ y ∈ t, goIsSpace y = true := trimRight_eq_nil_iff.mp hnil
      have hts : hasSubstr t sub = false := hasSubstr_allSpace ht hne hns
      have hsw := startsWith_trimRight (c :: t) sub hns
      rw [trimRight_cons, if_pos hnil] at hsw ⊢
      by_cases hq : goIsSpace c = true
      · rw [if_pos hq] at hsw ⊢
        rw [hasSubstr, hasSubstr, hsw, hts]
        simp
      · rw [if_neg hq] at hsw ⊢
        rw [hasSubstr, hasSubstr, hasSubstr, hsw, hts, startsWith_nil,
          isEmpty_false_of_ne hne]
    · have hsw := startsWith_trimRight (c :: t) sub hns
      rw [trimRight_cons, if_neg hnil] at hsw ⊢
      rw [hasSubstr, hasSubstr, hsw, ih]

theorem hasSubstr_trimLeft (s sub : GoString) (hne : sub ≠ [])
    (hns : ∀ d ∈ sub, goIsSpace d = false) :
    hasSubstr (s.dropWhile goIsSpace) sub = hasSubstr s sub := by
  induction s with
  | nil => rfl
  | cons c t ih =>
    by_cases hq : goIsSpace c = true
    · rw [List.dropWhile_cons_of_pos hq, ih, hasSubstr]
      cases sub with
      | nil => exact absurd rfl hne
      | cons d es =>
        have hb : (c == d) = false :=
          beq_false_of_space_nonspace hq (hns d (List.mem_cons_self d es))
        simp [startsWith, hb]
    · rw [List.dropWhile_cons_of_neg hq]

theorem hasSubstr_trimSpace (s sub : GoString) (hne : sub ≠ [])
    (hns : ∀ d ∈ sub, goIsSpace d = false) :
    hasSubstr (trimSpace s) sub = hasSubstr s sub := by
  unfold trimSpace trimLeft
  rw [hasSubstr_trimRight _ sub hne hns, hasSubstr_trimLeft s sub hne hns]

/-! ### Body cache, JSON reading, ajax detection, cookies, forms,
content negotiation -/

/-- C4: for every request with an attached, readable body, reading the
raw body twice through `readBody` yields byte-identical results, and
after the read the request's own body stream (the buffer installed back
onto the request) still yields the full original payload. -/
theorem readBody_replay (r : Request) (b : Body)
    (hb : r.request.body = some b) (he : b.readErr = none) :
    r.readBody.1 = Except.ok b.data ∧
    (r.readBody.2).readBody.1 = Except.ok b.data ∧
    ∃ b2, (r.readBody.2).request.body = some b2 ∧ (readAll b2).1 = Except.ok b.data := by
  refine ⟨?_, ?_, ?_⟩
  · simp [Request.readBody, readAll, hb, he]
  · simp [Request.readBody, readAll, hb, he]
  · exact ⟨{ data := b.data, readErr := none },
      by simp [Request.readBody, readAll, hb, he], rfl⟩

theorem readBody_replay_witness :
    wBody.readBody.1 = Except.ok [104, 105] ∧
    (wBody.readBody.2).readBody.1 = Except.ok [104, 105] ∧
    ∃ b2, (wBody.readBody.2).request.body = some b2 ∧
      (readAll b2).1 = Except.ok [104, 105] :=
  readBody_replay wBody { data := [104, 105], readErr := none } rfl rfl

/-- C5: `ReadJSON` fails with an explicit error when no body was ever
attached to the request, and fails with the read error when draining the
body stream fails; it never silently proceeds in either case. -/
theorem readJSON_explicit_errors (r : Request) (u : List Nat → Option GoErr) :
    (r.request.body = none → (r.ReadJSON u).1 = some bodyWasEmptyErr) ∧
    (∀ b e, r.request.body = some b → b.readErr = some e → (r.ReadJSON u).1 = some e) := by
  constructor
  · intro h
    simp [Request.ReadJSON, Request.readBody, h]
  · intro b e hb he
    simp [Request.ReadJSON, Request.readBody, readAll, hb, he]

theorem readJSON_explicit_errors_witness :
    (wNoBody.ReadJSON (fun _ => none)).1 = some bodyWasEmptyErr ∧
    (wBadBody.ReadJSON (fun _ => none)).1 = some (("boom").toList) :=
  ⟨(readJSON_explicit_errors wNoBody (fun _ => none)).1 rfl,
    (readJSON_explicit_errors wBadBody (fun _ => none)).2
      { data := [1, 2], readErr := some (("boom").toList) } (("boom").toList) rfl rfl⟩

/-- C6 (code bug): a request that carries `XMLHttpRequest` in its
`X-Requested-With` header — the header the claim is about, retrievable
via `Header` — is nonetheless classified as not-ajax, because `IsAjax`
looks up the CGI-style name `HTTP_X_REQUESTED_WITH`, whose canonical
form `Http_x_requested_with` never matches the wire header
`X-Requested-With`. -/
theorem isAjax_wrong_header_bug :
    ajaxWireRequest.Header xRequestedWithKey = xmlHttpRequestVal ∧
    ajaxWireRequest.IsAjax = false := by
  constructor
  · decide
  · decide

/-- C7: `Cookie` yields the empty string on the success path of the
presence check, and yields the `String()` serialization of the (nil)
cookie returned by the failed check on the failure path. -/
theorem cookie_inverted_branches (r : Request) (name : GoString) :
    r.Cookie name = if r.HasCookie name then [] else cookieString none := by
  unfold Request.Cookie Request.HasCookie
  cases h : r.request.cookie name with
  | none => rfl
  | some c => rfl

/-- C10: `Cookie` returns the empty string in both branches — the found
branch returns it directly and the absent branch serializes the nil
cookie, whose `String()` is empty — so the accessor never returns a
cookie's actual value. -/
theorem cookie_always_empty (r : Request) (name : GoString) :
    r.Cookie name = [] := by
  unfold Request.Cookie
  cases h : r.request.cookie name with
  | none => rfl
  | some c => rfl

/-- C8: on a fresh request, a form-parse failure makes `FormValues`
return the nil mapping with the failure swallowed (the result type
carries no error), and a successful parse returns the parsed mapping. -/
theorem formValues_swallow (r : Request) (hform : r.request.form = none) :
    (∀ e, r.request.parseFormErr = some e → (r.FormValues).1 = none) ∧
    (r.request.parseFormErr = none → (r.FormValues).1 = some r.request.parsedForm) := by
  constructor
  · intro e he
    simp [Request.FormValues, Request.parseForm, hform, he]
  · intro he
    simp [Request.FormValues, Request.parseForm, hform, he]

theorem formValues_swallow_witness :
    (wFormErr.FormValues).1 = none ∧
    (wFormOk.FormValues).1 = some wFormOk.request.parsedForm :=
  ⟨(formValues_swallow wFormErr rfl).1 (("bad form").toList) rfl,
    (formValues_swallow wFormOk rfl).2 rfl⟩

/-- C9: `WantsJSON` is true exactly when the Accept header's wire value
contains the substring `application/json` anywhere. -/
theorem wantsJSON_contains_accept (r : Request) :
    r.WantsJSON = hasSubstr (headerGet r.request.headers acceptKey) applicationJsonVal := by
  unfold Request.WantsJSON Request.HeaderContains
  rw [header_trim, hasSubstr_trimSpace _ _ (by decide) (by decide)]

end Larago
